import Mathlib

/-!
Verification of the bookkeeping application's core logic.

The Python sources are shallowly embedded as executable Lean definitions:

* `normalize_payee` (utils.py): the rule-based payee canonicalizer.  Python
  strings are modelled as `String` / `List Char` restricted to ASCII inputs
  without embedded newlines (all statements in scope are of that shape); the
  regex operations of the source are implemented as explicit structural
  scanners so every definition evaluates by `rfl` / `decide`.
* `propagate_vendor_info`, `generate_summary`, `load_existing_table`
  (utils.py): a transaction table is a `List Row`.
* the dedup step of `main` (app.py).
* `normalize_payees` (llm.py): the network call and JSON parse are modelled
  by an explicit parameter holding the parsed collaborator response
  (`none` models `json.loads` raising).
* the Amount Clusterer: it has no implementation in the sources, so it is
  modelled from the spec (see `cluster_amounts`).
-/

/-! ### Character classes (Python `\s`, `\d`, `\w` over ASCII) -/

def isWsChar (c : Char) : Bool :=
  c == ' ' || c == '\t' || c == '\n' || c == '\r' || c == '\u000B' || c == '\u000C'

def isDigitChar (c : Char) : Bool :=
  c.isDigit

def isWordChar (c : Char) : Bool :=
  c.isAlphanum || c == '_'

/-- Python `str.strip()`: drop whitespace at both ends. -/
def stripChars (cs : List Char) : List Char :=
  ((cs.dropWhile isWsChar).reverse.dropWhile isWsChar).reverse

/-! ### Stripping a trailing date: `re.sub(r"\s+\d{2}/\d{2}$", "", s)` -/

/-- Remove a trailing `\s+\d{2}/\d{2}` suffix (whitespace run followed by a
`MM/DD` date at the very end), as `re.sub(r"\s+\d{2}/\d{2}$", "", payee)`
does in `normalize_payee` (utils.py line 134). -/
def stripTrailingDate (cs : List Char) : List Char :=
  match cs.reverse with
  | d2 :: d1 :: '/' :: m2 :: m1 :: w :: rest =>
    if isDigitChar d2 && isDigitChar d1 && isDigitChar m2 && isDigitChar m1 && isWsChar w then
      ((w :: rest).dropWhile isWsChar).reverse
    else cs
  | _ => cs

/-! ### Star/phone rule: `re.match(r"^(.*)\*\d{3}-\d{3}-\d{4}", s)` -/

/-- Does `cs` begin with `\d{3}-\d{3}-\d{4}` (a phone number)? -/
def phoneAt : List Char → Bool
  | a :: b :: c :: '-' :: d :: e :: f :: '-' :: g :: h :: i :: j :: _ =>
    isDigitChar a && isDigitChar b && isDigitChar c && isDigitChar d &&
    isDigitChar e && isDigitChar f && isDigitChar g && isDigitChar h &&
    isDigitChar i && isDigitChar j
  | _ => false

/-- The greedy `^(.*)\*\d{3}-\d{3}-\d{4}` match of utils.py line 137: find
the last `*` that is immediately followed by a phone number, and return the
prefix before it (`group(1)`), or `none` when there is no such `*`. -/
def lastStarPhoneSplit : List Char → Option (List Char)
  | [] => none
  | c :: rest =>
    match lastStarPhoneSplit rest with
    | some pre => some (c :: pre)
    | none => if c == '*' && phoneAt rest then some [] else none

/-! ### Splitting on runs of two or more whitespace: `re.split(r"\s{2,}", s)` -/

/-- Worker for `splitWs2`: `acc` is the current field (reversed), `pend` a
pending whitespace run (reversed).  A run of length `≥ 2` is a separator; a
single whitespace character stays inside the field. -/
def splitWs2Go (acc pend : List Char) : List Char → List (List Char)
  | [] =>
    if pend.length ≥ 2 then [acc.reverse, []] else [(pend ++ acc).reverse]
  | c :: rest =>
    if isWsChar c then
      splitWs2Go acc (c :: pend) rest
    else
      if pend.length ≥ 2 then
        acc.reverse :: splitWs2Go [c] [] rest
      else
        splitWs2Go (c :: (pend ++ acc)) [] rest

/-- Embedding of `re.split(r"\s{2,}", s)` of utils.py line 144. -/
def splitWs2 (cs : List Char) : List (List Char) :=
  splitWs2Go [] [] cs

/-! ### Aggregator keywords -/

def AGGREGATOR_KEYWORDS : List String :=
  ["PAYPAL", "VENMO", "CASH APP", "ZELLE"]

/-- The `for keyword in AGGREGATOR_KEYWORDS: if payee_no_date.startswith(keyword)`
loop of utils.py lines 142-143: first keyword that is a prefix. -/
def findAggregator (cs : List Char) : Option String :=
  AGGREGATOR_KEYWORDS.find? (fun k => k.data.isPrefixOf cs)

/-! ### The global substitutions of the final clean-up step -/

/-- Embedding of `re.sub(r"#\d+", "", s)`: drop `#` followed by a maximal nonempty digit
run.  The `Bool` flag records that we are inside the digit run of a match. -/
def hashScan (inDigits : Bool) : List Char → List Char
  | [] => []
  | c :: rest =>
    if inDigits && isDigitChar c then
      hashScan true rest
    else
      if c == '#' && (match rest with | d :: _ => isDigitChar d | [] => false) then
        hashScan true rest
      else
        c :: hashScan false rest

/-- Word boundary `\b` against the previous character (`none` = start). -/
def nonWordBefore : Option Char → Bool
  | none => true
  | some p => !(isWordChar p)

/-- Word boundary `\b` against the next character (`[]` = end of string). -/
def nonWordHead : List Char → Bool
  | [] => true
  | c :: _ => !(isWordChar c)

/-- Does `cs` begin with `\d{3}-\d{7}\b`? -/
def phone37Here : List Char → Bool
  | a :: b :: c :: h :: d1 :: d2 :: d3 :: d4 :: d5 :: d6 :: d7 :: rest =>
    a.isDigit && b.isDigit && c.isDigit && h == '-' && d1.isDigit &&
    d2.isDigit && d3.isDigit && d4.isDigit && d5.isDigit && d6.isDigit &&
    d7.isDigit && nonWordHead rest
  | _ => false

/-- Embedding of `re.sub(r"\b\d{3}-\d{7}\b", "", s)`: a match is 11 characters; when one
starts at the current position we skip it (`skip` counts characters still to
drop).  `prev` is the previous character of the original string, for `\b`. -/
def phone37Scan (prev : Option Char) (skip : Nat) : List Char → List Char
  | [] => []
  | c :: rest =>
    match skip with
    | n + 1 => phone37Scan (some c) n rest
    | 0 =>
      if nonWordBefore prev && phone37Here (c :: rest) then
        phone37Scan (some c) 10 rest
      else
        c :: phone37Scan (some c) 0 rest

/-- Does `cs` begin with `\d{3}-\d{3}-\d{4}\b`? -/
def phone334Here : List Char → Bool
  | a :: b :: c :: h1 :: d :: e :: f :: h2 :: g :: h :: i :: j :: rest =>
    a.isDigit && b.isDigit && c.isDigit && h1 == '-' && d.isDigit &&
    e.isDigit && f.isDigit && h2 == '-' && g.isDigit && h.isDigit &&
    i.isDigit && j.isDigit && nonWordHead rest
  | _ => false

/-- Embedding of `re.sub(r"\b\d{3}-\d{3}-\d{4}\b", "", s)`: a match is 12 characters. -/
def phone334Scan (prev : Option Char) (skip : Nat) : List Char → List Char
  | [] => []
  | c :: rest =>
    match skip with
    | n + 1 => phone334Scan (some c) n rest
    | 0 =>
      if nonWordBefore prev && phone334Here (c :: rest) then
        phone334Scan (some c) 11 rest
      else
        c :: phone334Scan (some c) 0 rest

/-- Embedding of `re.sub(r"\b\d{5,}\b", "", s)`: drop maximal digit runs of length `≥ 5`
with word boundaries on both sides.  `run` is the digit run read so far
(reversed) and `bOk` whether `\b` held just before the run started. -/
def longDigitScan (run : List Char) (bOk : Bool) : List Char → List Char
  | [] =>
    if bOk && run.length ≥ 5 then [] else run.reverse
  | c :: rest =>
    if isDigitChar c then
      longDigitScan (c :: run) bOk rest
    else
      (if bOk && run.length ≥ 5 && !(isWordChar c) then [] else run.reverse)
        ++ c :: longDigitScan [] (!(isWordChar c)) rest

/-- Embedding of `re.sub(r"(?<=\s)\*(?=\s|$)", " ", s)`: an isolated `*` (whitespace
before, whitespace or end after) becomes a space; the lookaround characters
are not consumed.  `prev` is the previous original character. -/
def starScan (prev : Option Char) : List Char → List Char
  | [] => []
  | c :: rest =>
    if c == '*' && (match prev with | some p => isWsChar p | none => false)
        && (match rest with | [] => true | d :: _ => isWsChar d) then
      ' ' :: starScan (some '*') rest
    else
      c :: starScan (some c) rest

/-- Embedding of `re.sub(r"\s{2,}", " ", s)`: collapse whitespace runs of length `≥ 2`
to a single space (a lone whitespace character is left as it is). -/
def collapseWsGo (pend : List Char) : List Char → List Char
  | [] =>
    if pend.length ≥ 2 then [' '] else pend.reverse
  | c :: rest =>
    if isWsChar c then
      collapseWsGo (c :: pend) rest
    else
      (if pend.length ≥ 2 then [' '] else pend.reverse) ++ c :: collapseWsGo [] rest

/-! ### The payee normalizer (utils.py lines 120-163) -/

def upperChars (s : String) : List Char :=
  s.data.map Char.toUpper

/-- The date-stripped upper-cased form of the input (`payee_no_date`). -/
def dateStripped (s : String) : List Char :=
  stripTrailingDate (upperChars s)

/-- Embedding of `normalize_payee` on string input: upper-case, strip a trailing date,
then apply the rule chain of utils.py lines 136-163 in order (star/phone
rule, aggregator extraction, Amazon-Digital canonicalization, final global
clean-up substitutions). -/
def normalize_payee_str (payee : String) : String :=
  let up := upperChars payee
  let noDate := stripTrailingDate up
  match lastStarPhoneSplit noDate with
  | some pre => String.mk (stripChars pre)
  | none =>
    match findAggregator noDate with
    | some kw =>
      match splitWs2 up with
      | _ :: _ :: third :: _ => String.mk (stripChars (stripTrailingDate third))
      | _ => kw
    | none =>
      if "AMZN DIGITAL".data.isPrefixOf noDate || "AMAZON DIGITAL".data.isPrefixOf noDate then
        "AMZN DIGITAL"
      else
        let s1 := hashScan false noDate
        let s2 := phone37Scan none 0 s1
        let s3 := phone334Scan none 0 s2
        let s4 := longDigitScan [] true s3
        let s5 := starScan none s4
        let s6 := collapseWsGo [] s5
        String.mk (stripChars s6)

/-- A Python value reaching `normalize_payee`: either a string or some
non-string value (modelled by an opaque tag). -/
inductive PyValue where
  | str (s : String)
  | nonString (tag : Nat)
deriving DecidableEq

/-- Embedding of `normalize_payee` (utils.py line 120): non-string input passes through
unchanged (`if not isinstance(payee, str): return payee`). -/
def normalize_payee : PyValue → PyValue
  | PyValue.str s => PyValue.str (normalize_payee_str s)
  | PyValue.nonString t => PyValue.nonString t

/-! ### Transaction rows (utils.py / app.py tables) -/

/-- One row of the transaction table.  The date is kept in its rendered
form (comparison-relevant only through equality), the amount as a rational
number. -/
structure Row where
  payee : String
  normalized_payee : String
  date : String
  amount : ℚ
  note : String
  category : String
deriving DecidableEq

/-- Embedding of `df["amount"].between(low, high)` of utils.py line 208 (pandas
`between` is inclusive on both ends by default); `none` models the
`amount_range is None` branch where no amount restriction applies. -/
def inRange (amount_range : Option (ℚ × ℚ)) (a : ℚ) : Bool :=
  match amount_range with
  | none => true
  | some (lo, hi) => decide (lo ≤ a) && decide (a ≤ hi)

/-- Embedding of `propagate_vendor_info` (utils.py lines 175-211): set note and category
on every row whose `normalized_payee` matches (and whose amount lies in the
optional inclusive range); all other rows are returned as they are.  The
source's `if mask.any()` guard is a no-op semantically: assigning to an
empty selection changes nothing. -/
def propagate_vendor_info (df : List Row) (key note category : String)
    (amount_range : Option (ℚ × ℚ)) : List Row :=
  df.map fun r =>
    if r.normalized_payee == key && inRange amount_range r.amount then
      { r with note := note, category := category }
    else r

/-- The composite dedup key of app.py lines 28-33:
`f"{r['payee']}|{r['date']}|{r['amount']}"` (the amount's rendering is
modelled by `toString`; only that equal triples give equal keys matters). -/
def transaction_key (r : Row) : String :=
  r.payee ++ "|" ++ r.date ++ "|" ++ toString r.amount

/-- The dedup step of app.py lines 35-36: keep the incoming rows whose
transaction key is not among the existing table's keys. -/
def dedup (existing incoming : List Row) : List Row :=
  let processed_keys := existing.map transaction_key
  incoming.filter fun r => !(processed_keys.contains (transaction_key r))

/-! ### Vendor resolution (llm.py lines 88-123) -/

/-- A value `json.loads` can return: a JSON object whose keys and values
are strings (a mapping, the shape the caller expects), or any other valid
JSON value — an array, a bare string or number, or an object with
non-string values — modelled by an opaque tag. -/
inductive PyJson where
  | obj (m : List (String × String))
  | nonObj (tag : Nat)
deriving DecidableEq

/-- Embedding of `normalize_payees` (llm.py): with an empty key list it returns the
empty mapping without calling the collaborator.  Otherwise the collaborator's
response text is passed to `json.loads`; `parsed` holds that outcome, with
`none` modelling `json.loads` raising.  Only the raising path falls back to
the identity mapping over the input keys — whatever `json.loads` returns,
mapping or not, is returned as-is. -/
def normalize_payees (payees : List String)
    (parsed : Option PyJson) : PyJson :=
  if payees.isEmpty then PyJson.obj []
  else
    match parsed with
    | some v => v
    | none => PyJson.obj (payees.map fun p => (p, p))

/-- Embedding of `Series.replace(mapping)` on one cell: substitute an exact match,
otherwise keep the value. -/
def applyMapping (m : List (String × String)) (s : String) : String :=
  match m.find? (fun p => p.1 == s) with
  | some p => p.2
  | none => s

/-- Embedding of `Series.unique()`: first occurrence of each value, in order. -/
def uniqueKeepGo {α : Type} [DecidableEq α] (seen : List α) : List α → List α
  | [] => []
  | x :: xs =>
    if seen.contains x then uniqueKeepGo seen xs
    else x :: uniqueKeepGo (x :: seen) xs

/-! ### Category summary (utils.py lines 214-222) -/

/-- A row as seen by `generate_summary`: a nullable category label and an
amount. -/
structure CatRow where
  category : Option String
  amount : ℚ
deriving DecidableEq

/-- Insertion into a list sorted by `le`. -/
def insertSortedBy {α : Type} (le : α → α → Bool) (x : α) : List α → List α
  | [] => [x]
  | y :: ys => if le x y then x :: y :: ys else y :: insertSortedBy le x ys

/-- Insertion sort by `le`. -/
def sortByAsc {α : Type} (le : α → α → Bool) : List α → List α
  | [] => []
  | x :: xs => insertSortedBy le x (sortByAsc le xs)

/-- Lexicographic comparison of strings by code points (the order pandas
sorts group labels in). -/
def charListLe : List Char → List Char → Bool
  | [], _ => true
  | _ :: _, [] => false
  | a :: as, b :: bs =>
    if a.toNat < b.toNat then true
    else if b.toNat < a.toNat then false
    else charListLe as bs

/-- Group-key order used by pandas `groupby(sort=True, dropna=False)`:
labels ascending, the null bucket last. -/
def catKeyLe (a b : Option String) : Bool :=
  match a, b with
  | none, none => true
  | none, some _ => false
  | some _, none => true
  | some s, some t => charListLe s.data t.data

/-- Embedding of `generate_summary` (utils.py lines 214-222): an empty table yields the
empty table with columns `(category, total_amount)` (carried here by the
result type); otherwise group by category — the null bucket included,
`dropna=False` — and sum the amounts of each group. -/
def generate_summary (df : List CatRow) : List (Option String × ℚ) :=
  if df.isEmpty then []
  else
    (sortByAsc catKeyLe (uniqueKeepGo [] (df.map (·.category)))).map fun c =>
      (c, ((df.filter (fun r => r.category == c)).map (·.amount)).sum)

/-! ### Loading the persisted table (utils.py lines 49-87) -/

/-- A row of the persisted CSV (columns `payee, date, amount, note,
category`). -/
structure PersistRow where
  payee : String
  date : String
  amount : ℚ
  note : String
  category : String
deriving DecidableEq

/-- Outcome of `pd.read_csv(path)`: the parsed rows, a missing file
(`FileNotFoundError`), or a file that exists but cannot be parsed (pandas
raises e.g. `ParserError` / `EmptyDataError`, carried here as a message). -/
inductive ReadCsvOutcome where
  | ok (rows : List PersistRow)
  | fileNotFound
  | parseError (msg : String)
deriving DecidableEq

def canonicalColumns : List String :=
  ["payee", "date", "amount", "note", "category"]

/-- Embedding of `load_existing_table` (utils.py lines 49-87).  Only `FileNotFoundError`
is caught (line 70): a missing file becomes the empty table with the
canonical columns, any other read error propagates (modelled by
`Except.error`).  The function then adds the derived `normalized_payee`
column: heuristic normalization per row, then the collaborator mapping
(`llmParsed` holds its parse outcome as in `normalize_payees`) applied by
substitution.  On the empty table the key list is empty, so the
collaborator is never consulted. -/
def load_existing_table (read : ReadCsvOutcome)
    (llmParsed : Option PyJson) :
    Except String (List String × List (PersistRow × String)) :=
  match read with
  | ReadCsvOutcome.parseError msg => Except.error msg
  | ReadCsvOutcome.fileNotFound =>
    Except.ok (canonicalColumns ++ ["normalized_payee"], [])
  | ReadCsvOutcome.ok rows =>
    let normed := rows.map fun r => normalize_payee_str r.payee
    match normalize_payees (uniqueKeepGo [] normed) llmParsed with
    | PyJson.obj m =>
      Except.ok (canonicalColumns ++ ["normalized_payee"],
        rows.zip (normed.map (applyMapping m)))
    | PyJson.nonObj _ =>
      -- The source hands a non-mapping collaborator response straight to
      -- `Series.replace`, whose behavior on a non-dict argument is
      -- pandas-version-dependent (pad-fill historically, an exception in
      -- current releases); no theorem in this file relies on this branch.
      Except.error "Series.replace applied to a non-mapping response"

/-! ### Amount Clusterer -/

/-- Modelled from the spec: the Amount Clusterer component (§4.3) has no
implementation under the sources; this follows the spec's algorithm text.
Band loop: `band` is the current band (its head is the anchor, the first
and smallest amount placed in it); a subsequent amount `x` joins the band
iff `x / anchor ≤ ratio`, otherwise the band is closed and a new one is
anchored at `x`. -/
def clusterBandsGo (ratio : ℚ) : ℚ → List ℚ → List ℚ → List (List ℚ)
  | _, band, [] => [band]
  | anchor, band, x :: xs =>
    if x / anchor ≤ ratio then clusterBandsGo ratio anchor (band ++ [x]) xs
    else band :: clusterBandsGo ratio x [x] xs

/-- Modelled from the spec: the sorted (ascending) unique absolute amounts
of a vendor's transactions (§4.3: "collect unique absolute amounts, sort
ascending"). -/
def sortedUniqueAbs (amounts : List ℚ) : List ℚ :=
  sortByAsc (fun a b => decide (a ≤ b)) (uniqueKeepGo [] (amounts.map (fun a => |a|)))

/-- Modelled from the spec: amount clustering (§4.3, default ratio 3.0) —
partition the sorted unique absolute amounts into bands, starting a new
band whenever `amount / band_anchor > ratio`. -/
def cluster_amounts (amounts : List ℚ) (ratio : ℚ) : List (List ℚ) :=
  match sortedUniqueAbs amounts with
  | [] => []
  | a :: rest => clusterBandsGo ratio a [a] rest

/-- Relation between consecutive bands: the later band's anchor fails the
ratio test against the earlier band's anchor (which is why a new band was
started). -/
def bandBreak (ratio : ℚ) (b1 b2 : List ℚ) : Prop :=
  ∃ a1 a2, b1.head? = some a1 ∧ b2.head? = some a2 ∧ ratio < a2 / a1

/-- Spec-side inclusive range condition for `propagate` (§4.4): when an
`amount_range = (low, high)` is given, the amount lies in `[low, high]`. -/
def withinRange (amount_range : Option (ℚ × ℚ)) (a : ℚ) : Prop :=
  ∀ lo hi, amount_range = some (lo, hi) → lo ≤ a ∧ a ≤ hi

/-!
## Theorems
-/

/-- Sanity: the embedded normalizer reproduces the repository's own test
`test_amzn_digital_normalization`. -/
example : normalize_payee_str "AMZN Digital*GM3C83WE 888-802-3080 WA        09/30" = "AMZN DIGITAL" := by
  decide

/-- Sanity: the embedded normalizer reproduces the repository's own test
`test_godaddy_normalization`. -/
example : normalize_payee_str "DNH*GODADDY #1234567 480-5058877 AZ        09/30" = "DNH*GODADDY AZ" := by
  decide

/-- Sanity: the embedded normalizer reproduces the repository's own test
`test_adobe_phone_normalization`. -/
example : normalize_payee_str "ADOBE  *800-833-6687 800-833-6687 CA         02/10" = "ADOBE" := by
  decide


/-- The executable `inRange` test agrees with the spec-side inclusive-range
condition. -/
theorem withinRange_iff (amount_range : Option (ℚ × ℚ)) (a : ℚ) :
    withinRange amount_range a ↔ inRange amount_range a = true := by
  cases amount_range with
  | none => simp [withinRange, inRange]
  | some p =>
    obtain ⟨lo, hi⟩ := p
    constructor
    · intro h
      have := h lo hi rfl
      simp [inRange, this.1, this.2]
    · intro h lo' hi' heq
      obtain ⟨rfl, rfl⟩ := Prod.mk.injEq .. ▸ Option.some.injEq .. ▸ heq
      simpa [inRange, Bool.and_eq_true, decide_eq_true_eq] using h

/-- C4 counterexample: a collaborator response that is valid JSON but not
a mapping — for instance `"[]"`, modelled by `PyJson.nonObj 0` — cannot be
parsed as a valid mapping, yet `normalize_payees` returns it as-is instead
of the identity mapping: only a raising `json.loads` triggers the
fallback. -/
theorem C4_counterexample :
    normalize_payees ["A"] (some (PyJson.nonObj 0)) = PyJson.nonObj 0 ∧
    normalize_payees ["A"] (some (PyJson.nonObj 0)) ≠ PyJson.obj [("A", "A")] :=
  ⟨rfl, by decide⟩

/-- C4 (amended): for every list of payee keys, when the collaborator's
response cannot be parsed as JSON at all (`json.loads` raises, modelled by
`none`), vendor-name resolution returns the identity mapping — every input
key maps to itself — so the run is not blocked; a response that parses as
valid JSON but is not a mapping is returned as-is. -/
theorem C4_vendor_resolution_fallback (payees : List String) :
    normalize_payees payees none = PyJson.obj (payees.map (fun p => (p, p))) := by
  cases payees <;> simp [normalize_payees]

/-- C5: `generate_summary` groups by category and sums amounts per group:
for categories Meals, Meals, Office with amounts 10, 20, 30 it yields
Meals = 30 and Office = 30, and the empty table yields the empty result of
the `(category, total_amount)` shape instead of failing. -/
theorem C5_generate_summary :
    generate_summary
        [⟨some "Meals", 10⟩, ⟨some "Meals", 20⟩, ⟨some "Office", 30⟩] =
      [(some "Meals", 30), (some "Office", 30)] ∧
    generate_summary [] = [] := by
  constructor
  · simp [generate_summary, uniqueKeepGo, sortByAsc, insertSortedBy, catKeyLe,
      charListLe, List.filter]
    norm_num
  · rfl

/-- C7: `normalize_payee` is a pure total function of its input: equal
inputs give equal outputs, and a non-string input is returned unchanged. -/
theorem C7_normalize_total (v w : PyValue) (hvw : v = w) :
    normalize_payee v = normalize_payee w ∧
    (∀ t, normalize_payee (PyValue.nonString t) = PyValue.nonString t) := by
  subst hvw
  exact ⟨rfl, fun _ => rfl⟩

/-- Witness for C7 at a concrete non-string input. -/
theorem C7_witness : normalize_payee (PyValue.nonString 7) = PyValue.nonString 7 :=
  (C7_normalize_total (PyValue.nonString 7) (PyValue.nonString 7) rfl).2 7

/-- C9: when neither the star/phone rule nor an aggregator keyword applies
and the date-stripped upper-cased input starts with `AMZN DIGITAL` or
`AMAZON DIGITAL`, `normalize_payee` returns the literal `"AMZN DIGITAL"`. -/
theorem C9_amzn_digital (s : String)
    (h1 : lastStarPhoneSplit (dateStripped s) = none)
    (h2 : findAggregator (dateStripped s) = none)
    (h3 : "AMZN DIGITAL".data.isPrefixOf (dateStripped s) = true ∨
      "AMAZON DIGITAL".data.isPrefixOf (dateStripped s) = true) :
    normalize_payee_str s = "AMZN DIGITAL" := by
  have h1' : lastStarPhoneSplit (stripTrailingDate (upperChars s)) = none := h1
  have h2' : findAggregator (stripTrailingDate (upperChars s)) = none := h2
  rcases h3 with h | h <;>
    · have h' : _ = true := h
      simp only [dateStripped] at h'
      simp [normalize_payee_str, h1', h2', h']

/-- Witness for C9: the two concrete Amazon-Digital payees of the claim
both normalize to `"AMZN DIGITAL"`. -/
theorem C9_witness :
    normalize_payee_str "AMZN Digital*GM3C83WE 888-802-3080 WA 09/30" = "AMZN DIGITAL" ∧
    normalize_payee_str "AMZN Digital*K67VZ1R2 888-802-3080 WA 10/30" = "AMZN DIGITAL" :=
  ⟨C9_amzn_digital _ (by decide) (by decide) (Or.inl (by decide)),
   C9_amzn_digital _ (by decide) (by decide) (Or.inl (by decide))⟩

/-- C2: `propagate_vendor_info` overwrites note and category of every row
whose `normalized_payee` equals the vendor key (restricted, when an amount
range is given, to amounts inside the inclusive range), and every row of a
different vendor keeps its note and category unchanged; rows are related
pointwise, in order. -/
theorem C2_propagate_updates (df : List Row) (key note cat : String)
    (amount_range : Option (ℚ × ℚ)) :
    List.Forall₂ (fun r r' =>
      ((r.normalized_payee = key ∧ withinRange amount_range r.amount) →
        r'.note = note ∧ r'.category = cat) ∧
      (r.normalized_payee ≠ key →
        r'.note = r.note ∧ r'.category = r.category))
      df (propagate_vendor_info df key note cat amount_range) := by
  induction df with
  | nil => simp [propagate_vendor_info]
  | cons r rest ih =>
    simp only [propagate_vendor_info, List.map_cons] at ih ⊢
    refine List.Forall₂.cons ⟨?_, ?_⟩ ih
    · intro hmatch
      have h1 : (r.normalized_payee == key) = true := beq_iff_eq.mpr hmatch.1
      have h2 : inRange amount_range r.amount = true :=
        (withinRange_iff amount_range r.amount).mp hmatch.2
      simp [h1, h2]
    · intro hne
      have h1 : (r.normalized_payee == key) = false := by
        simpa using hne
      simp [h1]

/-- Witness for C2 at a concrete table: vendor "A" gets note "Coffee" and
category "Meals", vendor "B" is untouched. -/
theorem C2_witness :
    List.Forall₂ (fun (r r' : Row) =>
      ((r.normalized_payee = "A" ∧ withinRange none r.amount) →
        r'.note = "Coffee" ∧ r'.category = "Meals") ∧
      (r.normalized_payee ≠ "A" →
        r'.note = r.note ∧ r'.category = r.category))
      [⟨"A", "A", "2024-01-01", 1, "", ""⟩, ⟨"B", "B", "2024-01-02", 2, "", ""⟩]
      (propagate_vendor_info
        [⟨"A", "A", "2024-01-01", 1, "", ""⟩, ⟨"B", "B", "2024-01-02", 2, "", ""⟩]
        "A" "Coffee" "Meals" none) :=
  C2_propagate_updates
    [⟨"A", "A", "2024-01-01", 1, "", ""⟩, ⟨"B", "B", "2024-01-02", 2, "", ""⟩]
    "A" "Coffee" "Meals" none

/-- C10: `propagate_vendor_info` returns a table with exactly as many rows,
in the same order, each row keeping its payee, normalized payee, date and
amount; a row that does not match the vendor key (and range) is returned
entirely unchanged, so only note and category of matching rows are ever
modified. -/
theorem C10_propagate_frame (df : List Row) (key note cat : String)
    (amount_range : Option (ℚ × ℚ)) :
    (propagate_vendor_info df key note cat amount_range).length = df.length ∧
    List.Forall₂ (fun r r' =>
      r'.payee = r.payee ∧ r'.normalized_payee = r.normalized_payee ∧
      r'.date = r.date ∧ r'.amount = r.amount ∧
      ((r.normalized_payee == key && inRange amount_range r.amount) = false →
        r' = r))
      df (propagate_vendor_info df key note cat amount_range) := by
  refine ⟨by simp [propagate_vendor_info], ?_⟩
  induction df with
  | nil => simp [propagate_vendor_info]
  | cons r rest ih =>
    simp only [propagate_vendor_info, List.map_cons] at ih ⊢
    refine List.Forall₂.cons ?_ ih
    by_cases hm : (r.normalized_payee == key && inRange amount_range r.amount) = true
    · simp [hm]
    · simp [hm]

/-- Witness for C10 at a concrete table. -/
theorem C10_witness :
    (propagate_vendor_info [⟨"A", "A", "2024-01-01", 1, "n", "c"⟩]
        "A" "Coffee" "Meals" (some (0, 2))).length = 1 ∧
    List.Forall₂ (fun (r r' : Row) =>
      r'.payee = r.payee ∧ r'.normalized_payee = r.normalized_payee ∧
      r'.date = r.date ∧ r'.amount = r.amount ∧
      ((r.normalized_payee == "A" && inRange (some (0, 2)) r.amount) = false →
        r' = r))
      [⟨"A", "A", "2024-01-01", 1, "n", "c"⟩]
      (propagate_vendor_info [⟨"A", "A", "2024-01-01", 1, "n", "c"⟩]
        "A" "Coffee" "Meals" (some (0, 2))) :=
  C10_propagate_frame [⟨"A", "A", "2024-01-01", 1, "n", "c"⟩]
    "A" "Coffee" "Meals" (some (0, 2))

/-- C3: the dedup step excludes every incoming row whose exact
(payee, date, amount) triple already occurs in the existing table; in
particular re-ingesting a row already present produces zero new
unprocessed rows. -/
theorem C3_dedup_excludes (existing incoming : List Row) (r e : Row)
    (he : e ∈ existing) (hp : e.payee = r.payee) (hd : e.date = r.date)
    (ha : e.amount = r.amount) :
    r ∉ dedup existing incoming ∧ dedup existing [r] = [] := by
  have hkey : transaction_key e = transaction_key r := by
    unfold transaction_key
    rw [hp, hd, ha]
  have hmem : (existing.map transaction_key).contains (transaction_key r) = true := by
    rw [← hkey]
    exact List.elem_eq_true_of_mem (List.mem_map_of_mem transaction_key he)
  constructor
  · intro hr
    have := (List.mem_filter.mp hr).2
    rw [hmem] at this
    simp at this
  · simp only [dedup, List.filter, hmem, Bool.not_true]

/-- Witness for C3: re-ingesting an identical row yields nothing new. -/
theorem C3_witness :
    (⟨"CAFE", "CAFE", "2024-03-01 00:00:00", 6, "", ""⟩ : Row) ∉
      dedup [⟨"CAFE", "CAFE", "2024-03-01 00:00:00", 6, "", ""⟩]
        [⟨"CAFE", "CAFE", "2024-03-01 00:00:00", 6, "", ""⟩] ∧
    dedup [⟨"CAFE", "CAFE", "2024-03-01 00:00:00", 6, "", ""⟩]
        [⟨"CAFE", "CAFE", "2024-03-01 00:00:00", 6, "", ""⟩] = [] :=
  C3_dedup_excludes _ _ _ _ (List.mem_singleton.mpr rfl) rfl rfl rfl

/-- C6 counterexample: a file that exists but cannot be parsed is not
turned into an empty table — only `FileNotFoundError` is caught, so the
parse error propagates. -/
theorem C6_counterexample :
    load_existing_table (ReadCsvOutcome.parseError "ParserError") none =
      Except.error "ParserError" := rfl

/-- C6 (amended): loading the persisted ledger table when the file is
missing is non-fatal — the result is the empty table with the canonical
schema (the canonical five columns plus the derived `normalized_payee`)
rather than an error. -/
theorem C6_missing_file_empty_table (llmParsed : Option PyJson) :
    load_existing_table ReadCsvOutcome.fileNotFound llmParsed =
      Except.ok (canonicalColumns ++ ["normalized_payee"], []) := rfl

/-- The bands of the clustering loop cover exactly the remaining amounts,
prefixed by the band under construction, in order. -/
theorem clusterBandsGo_join (ratio : ℚ) :
    ∀ (rest : List ℚ) (anchor : ℚ) (band : List ℚ),
      (clusterBandsGo ratio anchor band rest).join = band ++ rest := by
  intro rest
  induction rest with
  | nil => intro anchor band; simp [clusterBandsGo]
  | cons x xs ih =>
    intro anchor band
    by_cases h : x / anchor ≤ ratio
    · simp [clusterBandsGo, h, ih]
    · simp [clusterBandsGo, h, ih]

/-- The clustering loop returns a nonempty band list whose first band
starts with the current band's first element. -/
theorem clusterBandsGo_head (ratio : ℚ) :
    ∀ (rest : List ℚ) (anchor : ℚ) (band : List ℚ), band.head? = some anchor →
      ∃ b L, clusterBandsGo ratio anchor band rest = b :: L ∧ b.head? = some anchor := by
  intro rest
  induction rest with
  | nil => intro anchor band hb; exact ⟨band, [], rfl, hb⟩
  | cons x xs ih =>
    intro anchor band hb
    by_cases h : x / anchor ≤ ratio
    · have hb2 : (band ++ [x]).head? = some anchor := by
        cases band with
        | nil => simp at hb
        | cons b bs => simpa using hb
      obtain ⟨b, L, heq, hh⟩ := ih anchor (band ++ [x]) hb2
      exact ⟨b, L, by simp [clusterBandsGo, h, heq], hh⟩
    · exact ⟨band, clusterBandsGo ratio x [x] xs, by simp [clusterBandsGo, h], hb⟩

/-- Every band the clustering loop emits is anchored at its first element:
each later member of the band passed the ratio test against that anchor. -/
theorem clusterBandsGo_bands (ratio : ℚ) :
    ∀ (rest : List ℚ) (anchor : ℚ) (t0 : List ℚ),
      (∀ y ∈ t0, y / anchor ≤ ratio) →
      ∀ b ∈ clusterBandsGo ratio anchor (anchor :: t0) rest,
        ∃ a t, b = a :: t ∧ ∀ x ∈ t, x / a ≤ ratio := by
  intro rest
  induction rest with
  | nil =>
    intro anchor t0 ht b hb
    simp only [clusterBandsGo, List.mem_singleton] at hb
    exact ⟨anchor, t0, hb, ht⟩
  | cons x xs ih =>
    intro anchor t0 ht b hb
    by_cases h : x / anchor ≤ ratio
    · rw [show clusterBandsGo ratio anchor (anchor :: t0) (x :: xs) =
          clusterBandsGo ratio anchor (anchor :: (t0 ++ [x])) xs from by
            simp [clusterBandsGo, h]] at hb
      refine ih anchor (t0 ++ [x]) ?_ b hb
      intro y hy
      rcases List.mem_append.mp hy with hy | hy
      · exact ht y hy
      · rw [List.mem_singleton.mp hy]; exact h
    · rw [show clusterBandsGo ratio anchor (anchor :: t0) (x :: xs) =
          (anchor :: t0) :: clusterBandsGo ratio x [x] xs from by
            simp [clusterBandsGo, h]] at hb
      rcases List.mem_cons.mp hb with hb | hb
      · exact ⟨anchor, t0, hb, ht⟩
      · exact ih x [] (by simp) b hb

/-- Consecutive bands are separated by a failed ratio test: the next
band's anchor exceeds `ratio` times the previous band's anchor. -/
theorem clusterBandsGo_chain (ratio : ℚ) :
    ∀ (rest : List ℚ) (anchor : ℚ) (band : List ℚ), band.head? = some anchor →
      List.Chain' (bandBreak ratio) (clusterBandsGo ratio anchor band rest) := by
  intro rest
  induction rest with
  | nil => intro anchor band _; simp [clusterBandsGo]
  | cons x xs ih =>
    intro anchor band hb
    by_cases h : x / anchor ≤ ratio
    · have hb2 : (band ++ [x]).head? = some anchor := by
        cases band with
        | nil => simp at hb
        | cons b bs => simpa using hb
      have := ih anchor (band ++ [x]) hb2
      simpa [clusterBandsGo, h] using this
    · obtain ⟨b, L, heq, hh⟩ := clusterBandsGo_head ratio xs x [x] (by simp)
      have hchain := ih x [x] (by simp)
      rw [heq] at hchain
      have hstep : clusterBandsGo ratio anchor band (x :: xs) = band :: b :: L := by
        simp [clusterBandsGo, h, heq]
      rw [hstep]
      exact List.chain'_cons.mpr ⟨⟨anchor, x, hb, hh, not_le.mp h⟩, hchain⟩

/-- C1: amount clustering partitions the sorted unique absolute amounts
into bands (their concatenation, in order, is exactly the sorted unique
absolute amounts); each band is anchored at its first (smallest) amount —
every later member `x` of a band with anchor `a` satisfies
`x / a ≤ ratio` — and each band is maximal: the anchor of the next band
fails the test against the previous band's anchor.  In particular for the
unique absolute amounts 5, 12, 14, 500 and ratio 3 the bands are
`[5, 12, 14]` and `[500]`. -/
theorem C1_amount_clustering (amounts : List ℚ) (ratio : ℚ) :
    (cluster_amounts amounts ratio).join = sortedUniqueAbs amounts ∧
    (∀ b ∈ cluster_amounts amounts ratio,
      ∃ a t, b = a :: t ∧ ∀ x ∈ t, x / a ≤ ratio) ∧
    List.Chain' (bandBreak ratio) (cluster_amounts amounts ratio) ∧
    cluster_amounts [5, 12, 14, 500] 3 = [[5, 12, 14], [500]] := by
  have hconc : cluster_amounts [5, 12, 14, 500] 3 = [[5, 12, 14], [500]] := by
    have h1 : sortedUniqueAbs [5, 12, 14, 500] = [5, 12, 14, 500] := by
      norm_num [sortedUniqueAbs, uniqueKeepGo, sortByAsc, insertSortedBy]
    rw [cluster_amounts, h1]
    norm_num [clusterBandsGo]
  refine ⟨?_, ?_, ?_, hconc⟩
  · rcases hsu : sortedUniqueAbs amounts with _ | ⟨a, rest⟩
    · simp [cluster_amounts, hsu]
    · rw [cluster_amounts, hsu, clusterBandsGo_join]
      simp
  · intro b hb
    rcases hsu : sortedUniqueAbs amounts with _ | ⟨a, rest⟩
    · rw [cluster_amounts, hsu] at hb
      simp at hb
    · rw [cluster_amounts, hsu] at hb
      exact clusterBandsGo_bands ratio rest a [] (by simp) b hb
  · rcases hsu : sortedUniqueAbs amounts with _ | ⟨a, rest⟩
    · simp [cluster_amounts, hsu]
    · rw [cluster_amounts, hsu]
      exact clusterBandsGo_chain ratio rest a [a] rfl

/-- Witness for C1 at the concrete input of the claim. -/
theorem C1_witness :
    (cluster_amounts [5, 12, 14, 500] 3).join = sortedUniqueAbs [5, 12, 14, 500] :=
  (C1_amount_clustering [5, 12, 14, 500] 3).1

/-- C8: when the star/phone rule does not apply and the date-stripped
upper-cased input starts with an aggregator keyword, `normalize_payee`
splits the (upper-cased) original input on runs of two or more whitespace
characters: with at least three fields it returns the third field with any
trailing date suffix stripped and trimmed, otherwise the bare keyword. -/
theorem C8_aggregator_extraction (s : String) (kw : String)
    (hstar : lastStarPhoneSplit (dateStripped s) = none)
    (hkw : findAggregator (dateStripped s) = some kw) :
    (∀ p1 p2 third rest, splitWs2 (upperChars s) = p1 :: p2 :: third :: rest →
      normalize_payee_str s = String.mk (stripChars (stripTrailingDate third))) ∧
    ((splitWs2 (upperChars s)).length < 3 → normalize_payee_str s = kw) := by
  have h1 : lastStarPhoneSplit (stripTrailingDate (upperChars s)) = none := hstar
  have h2 : findAggregator (stripTrailingDate (upperChars s)) = some kw := hkw
  constructor
  · intro p1 p2 third rest hsplit
    simp [normalize_payee_str, h1, h2, hsplit]
  · intro hlen
    rcases hsp : splitWs2 (upperChars s) with _ | ⟨p1, rest1⟩
    · simp [normalize_payee_str, h1, h2, hsp]
    · rcases rest1 with _ | ⟨p2, rest2⟩
      · simp [normalize_payee_str, h1, h2, hsp]
      · rcases rest2 with _ | ⟨p3, rest3⟩
        · simp [normalize_payee_str, h1, h2, hsp]
        · rw [hsp] at hlen
          simp at hlen
          omega

/-- Witness for C8: a PayPal memo line with three fields normalizes to the
cleaned third field. -/
theorem C8_witness :
    normalize_payee_str "PAYPAL  INST XFER  SPOTIFY 09/30" = "SPOTIFY" := by
  have h := C8_aggregator_extraction "PAYPAL  INST XFER  SPOTIFY 09/30" "PAYPAL"
    (by decide) (by decide)
  have hsplit : splitWs2 (upperChars "PAYPAL  INST XFER  SPOTIFY 09/30") =
      ["PAYPAL".data, "INST XFER".data, "SPOTIFY 09/30".data] := by decide
  exact (h.1 _ _ _ _ hsplit).trans (by decide)
